import Mathlib

/-!
Verification of the trajectory-serialization core of `traj-propagate`
(`src/spice_utils.rs`) against its specification.

Shallow embedding conventions:
* `f64`/`f32` values (epochs, state components, `fraction_to_save`) are
  modelled as exact rationals (`ℚ`).
* `usize` is modelled as `ℕ`; the Rust saturating float-to-`usize` cast
  `(1.0 / fraction_to_save) as usize` becomes a floor clamped to
  `usizeMax = 2 ^ 64 - 1`, with the `1.0 / 0.0 = +inf` case mapped to
  `usizeMax` explicitly.
* The external SPICE engine is an oracle: `bodn2c` and `spkezr` are
  function parameters, and the `failed_c` flag read at each of the three
  check points inside `write_to_spk` (after open, after the segment loop,
  after close), together with the `getmsg_c` diagnostic, form an `Engine`
  record.
* File-system effects are reified as a `WriteTrace` (was the kernel
  opened, which segments were handed to `spkw09_c`, was the kernel
  closed); Rust panics (out-of-bounds indexing, `Option::unwrap` /
  `Result::unwrap` failure) are reified as the `panicked` outcome.
-/

namespace TrajPropagate

/-- The value `usize::MAX` on a 64-bit target. -/
def usizeMax : Nat := 2 ^ 64 - 1

/-- The two panic sites reachable in `write_to_spk`:
`unwrapFail` is `concatenate(Axis(0), ..).unwrap()` on an empty collection of
per-instant slices (lines 145 and 160), `indexOOB` is `ets[0]` /
`ets[ets.len() - 1]` on an empty down-sampled epoch vector (lines 177-179). -/
inductive Panic where
  | unwrapFail
  | indexOOB
deriving DecidableEq

/-- One call to the engine's segment writer `spkw09_c` with all its arguments
(the handle is implicit: there is a single kernel per `write_to_spk` call). -/
structure Segment where
  target : Int
  observer : Int
  frame : String
  t0 : ℚ
  tfinal : ℚ
  label : String
  degree : Nat
  count : Nat
  states : List ℚ
  epochs : List ℚ
deriving DecidableEq

/-- The file-system / engine effects performed by one `write_to_spk` call. -/
structure WriteTrace where
  openCalled : Bool
  segments : List Segment
  closeCalled : Bool
deriving DecidableEq

/-- The `failed_c` flag as read at each check point of `write_to_spk`, plus
the `get_err_msg` short diagnostic. -/
structure Engine where
  openFails : Bool
  writeFailed : Bool
  closeFails : Bool
  errMsg : String

deriving instance DecidableEq for Except

/-- Outcome of `write_to_spk`: either a Rust panic, or a normal return
together with the effect trace. -/
inductive WriteResult where
  | panicked (p : Panic)
  | returned (r : Except String Unit) (tr : WriteTrace)
deriving DecidableEq

/-- Error message of the `fraction_to_save` precondition check (line 102). -/
def invalidFractionMsg : String :=
  "Please supply a fraction_to_save value between 0 and 1"

/-- Error message construction of the failed-open branch (lines 119-122). -/
def openErrMsg (d : String) : String :=
  "Failed to open SPK file for writing: " ++ d

/-- Error message construction of the failed-write branch (line 195). -/
def writeErrMsg (d : String) : String :=
  "Failed to write to SPK file: " ++ d

/-- Error message construction of the failed-close branch (lines 202-205). -/
def closeErrMsg (d : String) : String :=
  "Failed to close SPK file after writing: " ++ d

/-- Segment identifier `format!("Position of {} relative to {}", id, cb_id)`
(line 181). -/
def segLabel (id cb : Int) : String :=
  "Position of " ++ toString id ++ " relative to " ++ toString cb

/-- Structural worker for `stepBy`: `skip` elements remain to be skipped
before the next one is kept; keeping an element re-arms the counter to
`k - 1`. -/
def stepByAux (k : Nat) : List α → Nat → List α
  | [], _ => []
  | x :: xs, 0 => x :: stepByAux k xs (k - 1)
  | _ :: xs, skip + 1 => stepByAux k xs skip

/-- Rust `iter().step_by(k)`: keep the first element, then every `k`-th one
(lines 127-135). In the source `k ≥ 1` always holds (see `stepsToSkip`). -/
def stepBy (k : Nat) (xs : List α) : List α :=
  stepByAux k xs 0

/-- Line 126, `let steps_to_skip = (1.0 / fraction_to_save) as usize;`:
`1.0 / 0.0 = +inf` and the float-to-`usize` cast saturates at `usize::MAX`;
for positive `f` the cast truncates, i.e. floors. -/
def stepsToSkip (f : ℚ) : Nat :=
  if f = 0 then usizeMax else min ⌊(1 : ℚ) / f⌋.toNat usizeMax

/-- The slice `s.slice(s![(idx * 6)..(idx * 6 + 6)])` (lines 142, 157): the 6-component
block of body number `idx` inside one flat multi-body state. The source
panics when the flat state is shorter than `idx * 6 + 6`; all claims below
use well-formed states, where the block is exact. -/
def slice6 (idx : Nat) (s : List ℚ) : List ℚ :=
  (s.drop (idx * 6)).take 6

/-- Division `/ 1000f64` applied to a whole state matrix (lines 145, 160). -/
def kmScale (xs : List ℚ) : List ℚ :=
  xs.map (fun q => q / 1000)

/-- The subtraction `states_matrix_km -= cb_states_matrix_km` when a re-basing matrix exists
(lines 162-164), identity otherwise. -/
def applyCb : Option (List ℚ) → List ℚ → List ℚ
  | none, m => m
  | some cbm, m => List.zipWith (fun a b => a - b) m cbm

/-- The re-basing matrix of lines 139-146: present exactly when
`bodies.iter().position(|&id| id == cb_id)` finds the observer, and then
equal to the concatenated down-sampled observer blocks divided by 1000. -/
def cbMatrix (bodies : List Int) (cb : Int) (dsStates : List (List ℚ)) :
    Option (List ℚ) :=
  (bodies.findIdx? (fun id => id == cb)).map
    (fun i => kmScale ((dsStates.map (slice6 i)).flatten))

/-- The per-body loop of lines 148-192, over the enumerated body list.
For each body other than the observer it concatenates that body's
down-sampled blocks (panicking like `concatenate(..).unwrap()` if there is
no down-sampled state at all), converts to km, re-bases when a re-basing
matrix exists, and issues one `spkw09_c` call whose `t0` / `tfinal`
arguments index the down-sampled epoch vector (panicking when it is empty). -/
def buildSegments (cb : Int) (dsStates : List (List ℚ)) (dsEts : List ℚ)
    (cbMat : Option (List ℚ)) : List (Nat × Int) → Except Panic (List Segment)
  | [] => .ok []
  | (idx, id) :: rest =>
    if id = cb then
      buildSegments cb dsStates dsEts cbMat rest
    else if dsStates.isEmpty then
      .error .unwrapFail
    else
      match dsEts.head?, dsEts.getLast? with
      | some t0, some tf =>
        (buildSegments cb dsStates dsEts cbMat rest).map
          (fun segs =>
            { target := id
              observer := cb
              frame := "J2000"
              t0 := t0
              tfinal := tf
              label := segLabel id cb
              degree := 7
              count := dsStates.length
              states := applyCb cbMat (kmScale ((dsStates.map (slice6 idx)).flatten))
              epochs := dsEts } :: segs)
      | _, _ => .error .indexOOB

/-- Lines 194-208: the `failed_c` check after the segment loop (early return
without closing), then `spkcls_c` and the `failed_c` check after it. -/
def finishEngine (eng : Engine) (segs : List Segment) : WriteResult :=
  if eng.writeFailed then
    .returned (.error (writeErrMsg eng.errMsg)) ⟨true, segs, false⟩
  else if eng.closeFails then
    .returned (.error (closeErrMsg eng.errMsg)) ⟨true, segs, true⟩
  else
    .returned (.ok ()) ⟨true, segs, true⟩

/-- Model of `write_to_spk` (lines 93-209). The `fname` argument only names the file
on disk and does not influence the modelled behaviour. -/
def write_to_spk (fname : String) (bodies : List Int) (states : List (List ℚ))
    (ets : List ℚ) (cb : Int) (f : ℚ) (eng : Engine) : WriteResult :=
  if ¬(0 ≤ f ∧ f ≤ 1) then
    .returned (.error invalidFractionMsg) ⟨false, [], false⟩
  else if eng.openFails then
    .returned (.error (openErrMsg eng.errMsg)) ⟨true, [], false⟩
  else
    let k := stepsToSkip f
    let dsEts := stepBy k ets
    let dsStates := stepBy k states
    if (bodies.findIdx? (fun id => id == cb)).isSome && dsStates.isEmpty then
      .panicked .unwrapFail
    else
      match buildSegments cb dsStates dsEts (cbMatrix bodies cb dsStates)
          bodies.enum with
      | .error p => .panicked p
      | .ok segs => finishEngine eng segs

/-- Model of `naif_ids` (lines 21-31), with `spice::bodn2c` as an oracle returning
the `(id, found)` pair. -/
def naif_ids (bodn2c : String → Int × Bool) : List String →
    Except String (List Int)
  | [] => .ok []
  | b :: rest =>
    match bodn2c b with
    | (id, true) => (naif_ids bodn2c rest).map (fun ids => id :: ids)
    | (_, false) =>
      .error ("Body \x27" ++ b ++ "\x27 not found in kernel pool")

/-- The `naif_ids` error message for an unresolvable name. -/
def notFoundMsg (b : String) : String :=
  "Body \x27" ++ b ++ "\x27 not found in kernel pool"

/-- The slice update `s += &state` on the mutable 6-slice starting at `off`
(`state.slice_mut(s![(idx * 6)..(idx * 6 + 6)])`, lines 85-86). -/
def sliceAddAt (buf : List ℚ) (off : Nat) (s : List ℚ) : List ℚ :=
  buf.enum.map
    (fun p => if off ≤ p.1 ∧ p.1 < off + 6 then p.2 + s.getD (p.1 - off) 0
      else p.2)

/-- The loop of `states_at_instant` (lines 84-87), threading the flat
buffer; `stateAt` is the (already partially applied) per-body call. -/
def states_go (stateAt : Int → Except String (List ℚ)) :
    List Int → Nat → List ℚ → Except String (List ℚ)
  | [], _, buf => .ok buf
  | b :: rest, idx, buf =>
    match stateAt b with
    | .error e => .error e
    | .ok s => states_go stateAt rest (idx + 1) (sliceAddAt buf (idx * 6) s)

/-- Model of `states_at_instant` (lines 81-90): a zero buffer of length
`bodies.len() * 6` filled by one `state_at_instant` call per body.
`state_at_instant` itself only wraps the external `spkezr` call and is the
oracle parameter `stateAt`. -/
def states_at_instant (stateAt : Int → Int → ℚ → Except String (List ℚ))
    (bodies : List Int) (cb : Int) (et : ℚ) : Except String (List ℚ) :=
  states_go (fun b => stateAt b cb et) bodies 0
    (List.replicate (bodies.length * 6) 0)

/-- The segment issued for the enumerated body `p` given the shared
down-sampled data; the shape every `spkw09_c` call of the loop takes. -/
def segFor (cb : Int) (dsStates : List (List ℚ)) (dsEts : List ℚ)
    (cbMat : Option (List ℚ)) (t0 tf : ℚ) (p : Nat × Int) : Segment :=
  { target := p.2
    observer := cb
    frame := "J2000"
    t0 := t0
    tfinal := tf
    label := segLabel p.2 cb
    degree := 7
    count := dsStates.length
    states := applyCb cbMat (kmScale ((dsStates.map (slice6 p.1)).flatten))
    epochs := dsEts }

theorem stepByAux_eq (k : Nat) : ∀ (xs : List α) (n : Nat),
    stepByAux k xs n = stepByAux k (xs.drop n) 0
  | [], n => by simp [stepByAux]
  | x :: xs, 0 => rfl
  | x :: xs, n + 1 => by
    rw [List.drop_succ_cons]
    show stepByAux k xs n = _
    exact stepByAux_eq k xs n

theorem stepBy_nil (k : Nat) : stepBy k ([] : List α) = [] := rfl

theorem stepBy_cons (k : Nat) (x : α) (xs : List α) :
    stepBy k (x :: xs) = x :: stepBy k (List.drop (k - 1) xs) := by
  show stepByAux k (x :: xs) 0 = _
  rw [stepByAux, stepByAux_eq]
  rfl

theorem stepBy_head? (k : Nat) (xs : List α) :
    (stepBy k xs).head? = xs.head? := by
  cases xs <;> simp [stepBy_nil, stepBy_cons]

theorem stepBy_eq_nil_iff (k : Nat) (xs : List α) :
    stepBy k xs = [] ↔ xs = [] := by
  cases xs <;> simp [stepBy_nil, stepBy_cons]

theorem stepBy_one : ∀ xs : List α, stepBy 1 xs = xs
  | [] => stepBy_nil 1
  | x :: xs => by simp [stepBy_cons, stepBy_one xs]

theorem stepBy_getElem? (k : Nat) (hk : 1 ≤ k) :
    ∀ (xs : List α) (j : Nat), (stepBy k xs)[j]? = xs[j * k]?
  | [], j => by simp [stepBy_nil]
  | x :: xs, 0 => by simp [stepBy_cons]
  | x :: xs, j + 1 => by
    have h1 : (j + 1) * k = (k - 1 + j * k) + 1 := by
      rw [Nat.succ_mul]; omega
    rw [stepBy_cons, List.getElem?_cons_succ,
      stepBy_getElem? k hk (List.drop (k - 1) xs) j, List.getElem?_drop, h1,
      List.getElem?_cons_succ]
termination_by xs => xs.length
decreasing_by simp [List.length_drop]; omega

theorem stepBy_singleton (k : Nat) (x : α) (xs : List α)
    (h : xs.length + 1 ≤ k) : stepBy k (x :: xs) = [x] := by
  rw [stepBy_cons, List.drop_eq_nil_iff.mpr (by omega), stepBy_nil]

theorem stepsToSkip_zero : stepsToSkip 0 = usizeMax := by
  simp [stepsToSkip]

theorem stepsToSkip_of_ne_zero (f : ℚ) (h : f ≠ 0) :
    stepsToSkip f = min ⌊(1 : ℚ) / f⌋.toNat usizeMax := by
  simp [stepsToSkip, h]

theorem one_le_floor_one_div (f : ℚ) (h0 : 0 < f) (h1 : f ≤ 1) :
    (1 : ℤ) ≤ ⌊(1 : ℚ) / f⌋ :=
  Int.le_floor.mpr (by exact_mod_cast one_le_one_div h0 h1)

theorem stepsToSkip_pos (f : ℚ) (h0 : 0 < f) (h1 : f ≤ 1) :
    1 ≤ stepsToSkip f := by
  rw [stepsToSkip_of_ne_zero f (ne_of_gt h0)]
  have h2 := one_le_floor_one_div f h0 h1
  have h3 : 1 ≤ ⌊(1 : ℚ) / f⌋.toNat := by omega
  have h4 : 1 ≤ usizeMax := by norm_num [usizeMax]
  exact le_min h3 h4

theorem stepsToSkip_one : stepsToSkip 1 = 1 := by
  rw [stepsToSkip_of_ne_zero 1 one_ne_zero]
  norm_num [usizeMax]

theorem buildSegments_eq (cb : Int) (dsStates : List (List ℚ))
    (dsEts : List ℚ) (cbMat : Option (List ℚ)) (t0 tf : ℚ)
    (hS : dsStates ≠ []) (ht0 : dsEts.head? = some t0)
    (htf : dsEts.getLast? = some tf) (l : List (Nat × Int)) :
    buildSegments cb dsStates dsEts cbMat l =
      .ok ((l.filter (fun p => p.2 != cb)).map
        (segFor cb dsStates dsEts cbMat t0 tf)) := by
  induction l with
  | nil => simp [buildSegments]
  | cons hd tl ih =>
    obtain ⟨idx, id⟩ := hd
    by_cases h : id = cb
    · simp [buildSegments, h, List.filter_cons, ih]
    · have hS' : dsStates.isEmpty = false := List.isEmpty_eq_false.mpr hS
      simp [buildSegments, h, hS', ht0, htf, List.filter_cons, ih, segFor,
        Except.map]

theorem finishEngine_returned (eng : Engine) (segs : List Segment) :
    ∃ r tr, finishEngine eng segs = .returned r tr ∧
      tr.segments = segs ∧ tr.openCalled = true := by
  unfold finishEngine
  split_ifs <;> exact ⟨_, _, rfl, rfl, rfl⟩

/-- Unfolding of `write_to_spk` on the non-panicking path past a
successful kernel open: the result is `finishEngine` applied to one
segment per non-observer body, in body-list order. -/
theorem write_to_spk_run (fname : String) (bodies : List Int)
    (states : List (List ℚ)) (ets : List ℚ) (cb : Int) (f : ℚ) (eng : Engine)
    (hf0 : 0 ≤ f) (hf1 : f ≤ 1) (hopen : eng.openFails = false) (t0 tf : ℚ)
    (ht0 : (stepBy (stepsToSkip f) ets).head? = some t0)
    (htf : (stepBy (stepsToSkip f) ets).getLast? = some tf)
    (hS : stepBy (stepsToSkip f) states ≠ []) :
    write_to_spk fname bodies states ets cb f eng =
      finishEngine eng
        ((bodies.enum.filter (fun p => p.2 != cb)).map
          (segFor cb (stepBy (stepsToSkip f) states)
            (stepBy (stepsToSkip f) ets)
            (cbMatrix bodies cb (stepBy (stepsToSkip f) states)) t0 tf)) := by
  have hS' : (stepBy (stepsToSkip f) states).isEmpty = false :=
    List.isEmpty_eq_false.mpr hS
  rw [write_to_spk, if_neg (not_not_intro ⟨hf0, hf1⟩), hopen]
  simp only [Bool.false_eq_true, if_false, hS', Bool.and_false, if_false]
  rw [buildSegments_eq cb _ _ _ t0 tf hS ht0 htf]

/-- An engine run in which no `failed_c` check fires. -/
def engOK : Engine := ⟨false, false, false, "SPICE(NOERROR)"⟩

/-- Claim C1, amended: for every `fraction_to_save` outside the closed
interval `[0, 1]` (the interval the source checks, line 101), `write_to_spk`
fails with the invalid-fraction error and performs no filesystem I/O: the
kernel is never opened, no segment is written, no close is issued. -/
theorem write_to_spk_invalid_fraction (fname : String) (bodies : List Int)
    (states : List (List ℚ)) (ets : List ℚ) (cb : Int) (f : ℚ) (eng : Engine)
    (h : ¬(0 ≤ f ∧ f ≤ 1)) :
    write_to_spk fname bodies states ets cb f eng =
      .returned (.error invalidFractionMsg) ⟨false, [], false⟩ := by
  rw [write_to_spk, if_pos h]

theorem write_to_spk_invalid_fraction_witness :
    ¬((0 : ℚ) ≤ 2 ∧ (2 : ℚ) ≤ 1) ∧
    write_to_spk "out.bsp" [399] [[0, 0, 0, 0, 0, 0]] [7] 399 2 engOK =
      .returned (.error invalidFractionMsg) ⟨false, [], false⟩ :=
  ⟨by decide,
    write_to_spk_invalid_fraction "out.bsp" [399] [[0, 0, 0, 0, 0, 0]] [7]
      399 2 engOK (by decide)⟩

/-- Claim C1 counterexample: `fraction_to_save = 0` lies outside `(0, 1]`,
yet `write_to_spk` does not reject it — the check of line 101 accepts the
closed interval `[0, 1]`, the kernel is opened and closed. -/
theorem write_to_spk_fraction_zero_accepted :
    ¬((0 : ℚ) < 0 ∧ (0 : ℚ) ≤ 1) ∧
    write_to_spk "out.bsp" [399] [[0, 0, 0, 0, 0, 0]] [7] 399 0 engOK =
      .returned (.ok ()) ⟨true, [], true⟩ := by
  constructor
  · decide
  · decide

/-- Claim C2, amended: for `fraction_to_save` in `(0, 1]` the stride is
`floor(1 / fraction_to_save)` saturated at `usize::MAX` (the Rust
float-to-`usize` cast truncates and saturates); down-sampling keeps every
`steps_to_skip`-th element of both `epochs` and `states` starting at
index 0 in original order, so the first original epoch is always retained,
and for `fraction_to_save = 1` the stride is 1 and the down-sampled
timeline equals the input timeline exactly. -/
theorem write_to_spk_downsampling (f : ℚ) (h0 : 0 < f) (h1 : f ≤ 1)
    (ets : List ℚ) (states : List (List ℚ)) :
    stepsToSkip f = min ⌊(1 : ℚ) / f⌋.toNat usizeMax ∧
    1 ≤ stepsToSkip f ∧
    (∀ j : ℕ, (stepBy (stepsToSkip f) ets)[j]? = ets[j * stepsToSkip f]?) ∧
    (stepBy (stepsToSkip f) ets).head? = ets.head? ∧
    (∀ j : ℕ,
      (stepBy (stepsToSkip f) states)[j]? = states[j * stepsToSkip f]?) ∧
    (f = 1 → stepsToSkip f = 1 ∧ stepBy (stepsToSkip f) ets = ets ∧
      stepBy (stepsToSkip f) states = states) := by
  refine ⟨stepsToSkip_of_ne_zero f (ne_of_gt h0), stepsToSkip_pos f h0 h1,
    stepBy_getElem? _ (stepsToSkip_pos f h0 h1) ets, stepBy_head? _ ets,
    stepBy_getElem? _ (stepsToSkip_pos f h0 h1) states, fun hf => ?_⟩
  subst hf
  exact ⟨stepsToSkip_one, by rw [stepsToSkip_one, stepBy_one],
    by rw [stepsToSkip_one, stepBy_one]⟩

theorem write_to_spk_downsampling_witness :
    (0 < (1 : ℚ) / 2 ∧ (1 : ℚ) / 2 ≤ 1) ∧
    (stepsToSkip ((1 : ℚ) / 2) =
        min ⌊(1 : ℚ) / ((1 : ℚ) / 2)⌋.toNat usizeMax ∧
      1 ≤ stepsToSkip ((1 : ℚ) / 2) ∧
      (∀ j : ℕ, (stepBy (stepsToSkip ((1 : ℚ) / 2)) [(3 : ℚ), 4])[j]? =
        [(3 : ℚ), 4][j * stepsToSkip ((1 : ℚ) / 2)]?) ∧
      (stepBy (stepsToSkip ((1 : ℚ) / 2)) [(3 : ℚ), 4]).head? =
        [(3 : ℚ), 4].head? ∧
      (∀ j : ℕ, (stepBy (stepsToSkip ((1 : ℚ) / 2)) [[(5 : ℚ)]])[j]? =
        [[(5 : ℚ)]][j * stepsToSkip ((1 : ℚ) / 2)]?) ∧
      ((1 : ℚ) / 2 = 1 → stepsToSkip ((1 : ℚ) / 2) = 1 ∧
        stepBy (stepsToSkip ((1 : ℚ) / 2)) [(3 : ℚ), 4] = [(3 : ℚ), 4] ∧
        stepBy (stepsToSkip ((1 : ℚ) / 2)) [[(5 : ℚ)]] = [[(5 : ℚ)]])) :=
  ⟨⟨by norm_num, by norm_num⟩,
    write_to_spk_downsampling ((1 : ℚ) / 2) (by norm_num) (by norm_num)
      [(3 : ℚ), 4] [[(5 : ℚ)]]⟩

/-- Claim C2 counterexample: at the valid fraction `2 ^ (-100)` (exactly
representable in `f32`, with an exactly representable quotient `2 ^ 100`)
the stride is not `floor(1 / fraction_to_save) = 2 ^ 100`: the cast
saturates at `usize::MAX = 2 ^ 64 - 1`. -/
theorem stepsToSkip_saturates :
    (0 < (1 : ℚ) / 2 ^ 100 ∧ (1 : ℚ) / 2 ^ 100 ≤ 1) ∧
    (stepsToSkip ((1 : ℚ) / 2 ^ 100) : ℤ) ≠
      ⌊(1 : ℚ) / ((1 : ℚ) / 2 ^ 100)⌋ := by
  have hfloor : ⌊(1 : ℚ) / ((1 : ℚ) / 2 ^ 100)⌋ = 2 ^ 100 := by
    rw [one_div_one_div]
    have h : ((2 : ℚ) ^ 100) = ((2 ^ 100 : ℤ) : ℚ) := by push_cast; ring
    rw [h, Int.floor_intCast]
  refine ⟨⟨by positivity, by rw [div_le_one (by positivity)]; norm_num⟩, ?_⟩
  rw [hfloor, stepsToSkip_of_ne_zero _ (by positivity), hfloor]
  have hmin : min ((2 : ℤ) ^ 100).toNat usizeMax = usizeMax := by
    norm_num [usizeMax]
  rw [hmin]
  norm_num [usizeMax]

/-- Claim C9: `fraction_to_save = 0` passes the precondition check (the
source tests the closed range `0.0..=1.0`), the kernel is opened, the
stride `(1.0 / 0.0) as usize` saturates to `usize::MAX`, and only the
element at index 0 of `epochs` and of `states` is retained for writing
(every written segment covers exactly the first epoch and one state). -/
theorem write_to_spk_fraction_zero (fname : String) (bodies : List Int)
    (e0 : ℚ) (ets : List ℚ) (s0 : List ℚ) (states : List (List ℚ))
    (cb : Int) (eng : Engine)
    (hlen : ets.length + 1 ≤ usizeMax) (hlen2 : states.length + 1 ≤ usizeMax)
    (hopen : eng.openFails = false) :
    stepsToSkip 0 = usizeMax ∧
    stepBy (stepsToSkip 0) (e0 :: ets) = [e0] ∧
    stepBy (stepsToSkip 0) (s0 :: states) = [s0] ∧
    ∃ r tr,
      write_to_spk fname bodies (s0 :: states) (e0 :: ets) cb 0 eng =
        .returned r tr ∧ tr.openCalled = true ∧
      ∀ seg ∈ tr.segments, seg.epochs = [e0] ∧ seg.count = 1 := by
  have hse : stepBy (stepsToSkip 0) (e0 :: ets) = [e0] := by
    rw [stepsToSkip_zero]; exact stepBy_singleton usizeMax e0 ets hlen
  have hss : stepBy (stepsToSkip 0) (s0 :: states) = [s0] := by
    rw [stepsToSkip_zero]; exact stepBy_singleton usizeMax s0 states hlen2
  refine ⟨stepsToSkip_zero, hse, hss, ?_⟩
  rw [write_to_spk_run fname bodies (s0 :: states) (e0 :: ets) cb 0 eng
    le_rfl zero_le_one hopen e0 e0 (by rw [hse]; rfl) (by rw [hse]; rfl)
    (by rw [hss]; exact List.cons_ne_nil s0 [])]
  obtain ⟨r, tr, heq, hsegs, hop⟩ := finishEngine_returned eng _
  refine ⟨r, tr, heq, hop, ?_⟩
  intro seg hseg
  rw [hsegs] at hseg
  obtain ⟨p, hp, rfl⟩ := List.mem_map.mp hseg
  constructor
  · show (stepBy (stepsToSkip 0) (e0 :: ets)) = [e0]
    exact hse
  · show (stepBy (stepsToSkip 0) (s0 :: states)).length = 1
    rw [hss]; rfl

theorem write_to_spk_fraction_zero_witness :
    ([(8 : ℚ), 9].length + 1 ≤ usizeMax) ∧
    ([[(1 : ℚ), 1, 1, 1, 1, 1], [(2 : ℚ), 2, 2, 2, 2, 2]].length + 1 ≤
      usizeMax) ∧
    engOK.openFails = false ∧
    (stepsToSkip 0 = usizeMax ∧
      stepBy (stepsToSkip 0) ((7 : ℚ) :: [(8 : ℚ), 9]) = [(7 : ℚ)] ∧
      stepBy (stepsToSkip 0) ([(0 : ℚ), 0, 0, 0, 0, 0] ::
        [[(1 : ℚ), 1, 1, 1, 1, 1], [(2 : ℚ), 2, 2, 2, 2, 2]]) =
        [[(0 : ℚ), 0, 0, 0, 0, 0]] ∧
      ∃ r tr,
        write_to_spk "out.bsp" [399] ([(0 : ℚ), 0, 0, 0, 0, 0] ::
            [[(1 : ℚ), 1, 1, 1, 1, 1], [(2 : ℚ), 2, 2, 2, 2, 2]])
            ((7 : ℚ) :: [(8 : ℚ), 9]) 301 0 engOK =
          .returned r tr ∧ tr.openCalled = true ∧
        ∀ seg ∈ tr.segments, seg.epochs = [(7 : ℚ)] ∧ seg.count = 1) :=
  ⟨by decide, by decide, rfl,
    write_to_spk_fraction_zero "out.bsp" [399] 7 [(8 : ℚ), 9]
      [(0 : ℚ), 0, 0, 0, 0, 0]
      [[(1 : ℚ), 1, 1, 1, 1, 1], [(2 : ℚ), 2, 2, 2, 2, 2]] 301 engOK
      (by decide) (by decide) rfl⟩

/-- Claim C3: when the observer appears in `bodies` (first occurrence at
index `i`), every segment's state buffer is, component-wise over the whole
down-sampled series, the body's raw state minus the raw state of the body
at index `i`, each side divided by 1000 (km conversion) before the
subtraction. -/
theorem write_to_spk_relative_states (fname : String) (bodies : List Int)
    (states : List (List ℚ)) (ets : List ℚ) (cb : Int) (f : ℚ) (eng : Engine)
    (i : Nat) (hf0 : 0 ≤ f) (hf1 : f ≤ 1) (hopen : eng.openFails = false)
    (hi : bodies.findIdx? (fun id => id == cb) = some i) (t0 tf : ℚ)
    (ht0 : (stepBy (stepsToSkip f) ets).head? = some t0)
    (htf : (stepBy (stepsToSkip f) ets).getLast? = some tf)
    (hS : stepBy (stepsToSkip f) states ≠ []) :
    ∃ r tr, write_to_spk fname bodies states ets cb f eng = .returned r tr ∧
      tr.segments.map Segment.states =
        (bodies.enum.filter (fun p => p.2 != cb)).map
          (fun p => List.zipWith (fun a b => a / 1000 - b / 1000)
            (((stepBy (stepsToSkip f) states).map (slice6 p.1)).flatten)
            (((stepBy (stepsToSkip f) states).map (slice6 i)).flatten)) := by
  rw [write_to_spk_run fname bodies states ets cb f eng hf0 hf1 hopen t0 tf
    ht0 htf hS]
  obtain ⟨r, tr, heq, hsegs, _⟩ := finishEngine_returned eng _
  refine ⟨r, tr, heq, ?_⟩
  rw [hsegs, List.map_map]
  refine List.map_congr_left fun p hp => ?_
  show applyCb (cbMatrix bodies cb (stepBy (stepsToSkip f) states)) _ = _
  simp only [cbMatrix, hi, Option.map_some', applyCb, kmScale]
  rw [List.zipWith_map]

theorem write_to_spk_relative_states_witness :
    ((0 : ℚ) ≤ 1 ∧ (1 : ℚ) ≤ 1 ∧ engOK.openFails = false ∧
      [(399 : Int), 301].findIdx? (fun id => id == 399) = some 0 ∧
      (stepBy (stepsToSkip 1) [(42 : ℚ)]).head? = some 42 ∧
      (stepBy (stepsToSkip 1) [(42 : ℚ)]).getLast? = some 42 ∧
      stepBy (stepsToSkip 1)
        [[(1 : ℚ), 2, 3, 4, 5, 6, 7, 8, 9, 10, 11, 12]] ≠ []) ∧
    ∃ r tr, write_to_spk "out.bsp" [399, 301]
        [[(1 : ℚ), 2, 3, 4, 5, 6, 7, 8, 9, 10, 11, 12]] [42] 399 1 engOK =
        .returned r tr ∧
      tr.segments.map Segment.states =
        ([(399 : Int), 301].enum.filter (fun p => p.2 != (399 : Int))).map
          (fun p => List.zipWith (fun a b => a / 1000 - b / 1000)
            (((stepBy (stepsToSkip 1)
              [[(1 : ℚ), 2, 3, 4, 5, 6, 7, 8, 9, 10, 11, 12]]).map
                (slice6 p.1)).flatten)
            (((stepBy (stepsToSkip 1)
              [[(1 : ℚ), 2, 3, 4, 5, 6, 7, 8, 9, 10, 11, 12]]).map
                (slice6 0)).flatten)) :=
  ⟨⟨zero_le_one, le_rfl, rfl, rfl,
    by rw [stepsToSkip_one]; rfl, by rw [stepsToSkip_one]; rfl,
    by rw [stepsToSkip_one, stepBy_one]; exact List.cons_ne_nil _ _⟩,
    write_to_spk_relative_states "out.bsp" [399, 301]
      [[(1 : ℚ), 2, 3, 4, 5, 6, 7, 8, 9, 10, 11, 12]] [42] 399 1 engOK 0
      zero_le_one le_rfl rfl rfl 42 42
      (by rw [stepsToSkip_one]; rfl) (by rw [stepsToSkip_one]; rfl)
      (by rw [stepsToSkip_one, stepBy_one]; exact List.cons_ne_nil _ _)⟩

/-- Claim C4: on the success path with a non-empty down-sampled timeline,
exactly one segment is issued per non-observer body, in body-list order,
with target id the body, observer id the observer, frame `"J2000"`,
`t0` / `tfinal` the first / last down-sampled epoch, the
`Position of .. relative to ..` label, interpolation degree 7, and count
the number of down-sampled states. -/
theorem write_to_spk_segment_metadata (fname : String) (bodies : List Int)
    (states : List (List ℚ)) (ets : List ℚ) (cb : Int) (f : ℚ) (eng : Engine)
    (hf0 : 0 ≤ f) (hf1 : f ≤ 1) (hopen : eng.openFails = false) (t0 tf : ℚ)
    (ht0 : (stepBy (stepsToSkip f) ets).head? = some t0)
    (htf : (stepBy (stepsToSkip f) ets).getLast? = some tf)
    (hS : stepBy (stepsToSkip f) states ≠ []) :
    ∃ r tr, write_to_spk fname bodies states ets cb f eng = .returned r tr ∧
      tr.segments.map (fun s => (s.target, s.observer, s.frame, s.t0,
          s.tfinal, s.label, s.degree, s.count)) =
        (bodies.enum.filter (fun p => p.2 != cb)).map
          (fun p => (p.2, cb, "J2000", t0, tf, segLabel p.2 cb, 7,
            (stepBy (stepsToSkip f) states).length)) := by
  rw [write_to_spk_run fname bodies states ets cb f eng hf0 hf1 hopen t0 tf
    ht0 htf hS]
  obtain ⟨r, tr, heq, hsegs, _⟩ := finishEngine_returned eng _
  refine ⟨r, tr, heq, ?_⟩
  rw [hsegs, List.map_map]
  exact List.map_congr_left fun p hp => rfl

theorem write_to_spk_segment_metadata_witness :
    ((0 : ℚ) ≤ 1 ∧ (1 : ℚ) ≤ 1 ∧ engOK.openFails = false ∧
      (stepBy (stepsToSkip 1) [(42 : ℚ), 43]).head? = some 42 ∧
      (stepBy (stepsToSkip 1) [(42 : ℚ), 43]).getLast? = some 43 ∧
      stepBy (stepsToSkip 1)
        [[(1 : ℚ), 2, 3, 4, 5, 6], [(7 : ℚ), 8, 9, 10, 11, 12]] ≠ []) ∧
    ∃ r tr, write_to_spk "out.bsp" [301] [[(1 : ℚ), 2, 3, 4, 5, 6],
        [(7 : ℚ), 8, 9, 10, 11, 12]] [(42 : ℚ), 43] 399 1 engOK =
        .returned r tr ∧
      tr.segments.map (fun s => (s.target, s.observer, s.frame, s.t0,
          s.tfinal, s.label, s.degree, s.count)) =
        ([(301 : Int)].enum.filter (fun p => p.2 != (399 : Int))).map
          (fun p => (p.2, (399 : Int), "J2000", (42 : ℚ), (43 : ℚ),
            segLabel p.2 399, 7,
            (stepBy (stepsToSkip 1) [[(1 : ℚ), 2, 3, 4, 5, 6],
              [(7 : ℚ), 8, 9, 10, 11, 12]]).length)) :=
  ⟨⟨zero_le_one, le_rfl, rfl,
    by rw [stepsToSkip_one]; rfl, by rw [stepsToSkip_one]; rfl,
    by rw [stepsToSkip_one, stepBy_one]; exact List.cons_ne_nil _ _⟩,
    write_to_spk_segment_metadata "out.bsp" [301] [[(1 : ℚ), 2, 3, 4, 5, 6],
      [(7 : ℚ), 8, 9, 10, 11, 12]] [(42 : ℚ), 43] 399 1 engOK
      zero_le_one le_rfl rfl 42 43
      (by rw [stepsToSkip_one]; rfl) (by rw [stepsToSkip_one]; rfl)
      (by rw [stepsToSkip_one, stepBy_one]; exact List.cons_ne_nil _ _)⟩

/-- Claim C5: after all segments are appended, if the engine failure flag
is set the call returns the segment-write error carrying the engine
diagnostic and the kernel close call is never made (the handle is left
open); the close call is made exactly when that check passes, and then a
failing close yields the kernel-close error while otherwise the call
succeeds. -/
theorem write_to_spk_close_semantics (fname : String) (bodies : List Int)
    (states : List (List ℚ)) (ets : List ℚ) (cb : Int) (f : ℚ) (eng : Engine)
    (hf0 : 0 ≤ f) (hf1 : f ≤ 1) (hopen : eng.openFails = false) (t0 tf : ℚ)
    (ht0 : (stepBy (stepsToSkip f) ets).head? = some t0)
    (htf : (stepBy (stepsToSkip f) ets).getLast? = some tf)
    (hS : stepBy (stepsToSkip f) states ≠ []) :
    ∃ segs : List Segment,
      (eng.writeFailed = true →
        write_to_spk fname bodies states ets cb f eng =
          .returned (.error (writeErrMsg eng.errMsg)) ⟨true, segs, false⟩) ∧
      (eng.writeFailed = false → eng.closeFails = true →
        write_to_spk fname bodies states ets cb f eng =
          .returned (.error (closeErrMsg eng.errMsg)) ⟨true, segs, true⟩) ∧
      (eng.writeFailed = false → eng.closeFails = false →
        write_to_spk fname bodies states ets cb f eng =
          .returned (.ok ()) ⟨true, segs, true⟩) := by
  refine ⟨(bodies.enum.filter (fun p => p.2 != cb)).map
    (segFor cb (stepBy (stepsToSkip f) states) (stepBy (stepsToSkip f) ets)
      (cbMatrix bodies cb (stepBy (stepsToSkip f) states)) t0 tf),
    ?_, ?_, ?_⟩
  · intro hw
    rw [write_to_spk_run fname bodies states ets cb f eng hf0 hf1 hopen t0 tf
      ht0 htf hS]
    simp [finishEngine, hw]
  · intro hw hc
    rw [write_to_spk_run fname bodies states ets cb f eng hf0 hf1 hopen t0 tf
      ht0 htf hS]
    simp [finishEngine, hw, hc]
  · intro hw hc
    rw [write_to_spk_run fname bodies states ets cb f eng hf0 hf1 hopen t0 tf
      ht0 htf hS]
    simp [finishEngine, hw, hc]

theorem write_to_spk_close_semantics_witness :
    ((0 : ℚ) ≤ 1 ∧ (1 : ℚ) ≤ 1 ∧
      (Engine.mk false true false "SPICE(FAIL)").openFails = false ∧
      (stepBy (stepsToSkip 1) [(42 : ℚ)]).head? = some 42 ∧
      (stepBy (stepsToSkip 1) [(42 : ℚ)]).getLast? = some 42 ∧
      stepBy (stepsToSkip 1) [[(1 : ℚ), 2, 3, 4, 5, 6]] ≠ []) ∧
    ∃ segs : List Segment,
      ((Engine.mk false true false "SPICE(FAIL)").writeFailed = true →
        write_to_spk "out.bsp" [301] [[(1 : ℚ), 2, 3, 4, 5, 6]] [42] 399 1
            (Engine.mk false true false "SPICE(FAIL)") =
          .returned (.error (writeErrMsg
            (Engine.mk false true false "SPICE(FAIL)").errMsg))
            ⟨true, segs, false⟩) ∧
      ((Engine.mk false true false "SPICE(FAIL)").writeFailed = false →
        (Engine.mk false true false "SPICE(FAIL)").closeFails = true →
        write_to_spk "out.bsp" [301] [[(1 : ℚ), 2, 3, 4, 5, 6]] [42] 399 1
            (Engine.mk false true false "SPICE(FAIL)") =
          .returned (.error (closeErrMsg
            (Engine.mk false true false "SPICE(FAIL)").errMsg))
            ⟨true, segs, true⟩) ∧
      ((Engine.mk false true false "SPICE(FAIL)").writeFailed = false →
        (Engine.mk false true false "SPICE(FAIL)").closeFails = false →
        write_to_spk "out.bsp" [301] [[(1 : ℚ), 2, 3, 4, 5, 6]] [42] 399 1
            (Engine.mk false true false "SPICE(FAIL)") =
          .returned (.ok ()) ⟨true, segs, true⟩) :=
  ⟨⟨zero_le_one, le_rfl, rfl,
    by rw [stepsToSkip_one]; rfl, by rw [stepsToSkip_one]; rfl,
    by rw [stepsToSkip_one, stepBy_one]; exact List.cons_ne_nil _ _⟩,
    write_to_spk_close_semantics "out.bsp" [301] [[(1 : ℚ), 2, 3, 4, 5, 6]]
      [42] 399 1 (Engine.mk false true false "SPICE(FAIL)")
      zero_le_one le_rfl rfl 42 42
      (by rw [stepsToSkip_one]; rfl) (by rw [stepsToSkip_one]; rfl)
      (by rw [stepsToSkip_one, stepBy_one]; exact List.cons_ne_nil _ _)⟩

/-- Claim C6: when the observer id does not appear in `bodies`, no
re-basing buffer is built and no subtraction happens: every segment's
state buffer is the body's raw down-sampled state, only km-converted. -/
theorem write_to_spk_absolute_states (fname : String) (bodies : List Int)
    (states : List (List ℚ)) (ets : List ℚ) (cb : Int) (f : ℚ) (eng : Engine)
    (hcb : cb ∉ bodies) (hf0 : 0 ≤ f) (hf1 : f ≤ 1)
    (hopen : eng.openFails = false) (t0 tf : ℚ)
    (ht0 : (stepBy (stepsToSkip f) ets).head? = some t0)
    (htf : (stepBy (stepsToSkip f) ets).getLast? = some tf)
    (hS : stepBy (stepsToSkip f) states ≠ []) :
    cbMatrix bodies cb (stepBy (stepsToSkip f) states) = none ∧
    ∃ r tr, write_to_spk fname bodies states ets cb f eng = .returned r tr ∧
      tr.segments.map Segment.states =
        bodies.enum.map (fun p =>
          kmScale (((stepBy (stepsToSkip f) states).map
            (slice6 p.1)).flatten)) := by
  have hidx : bodies.findIdx? (fun id => id == cb) = none := by
    rw [List.findIdx?_eq_none_iff]
    intro x hx
    simpa using ne_of_mem_of_not_mem hx hcb
  have hfilter : bodies.enum.filter (fun p => p.2 != cb) = bodies.enum := by
    rw [List.filter_eq_self]
    intro p hp
    have hmem : p.2 ∈ bodies := by
      have h2 := List.mem_map_of_mem Prod.snd hp
      rwa [List.enum_map_snd] at h2
    simpa using ne_of_mem_of_not_mem hmem hcb
  refine ⟨by simp [cbMatrix, hidx], ?_⟩
  rw [write_to_spk_run fname bodies states ets cb f eng hf0 hf1 hopen t0 tf
    ht0 htf hS]
  obtain ⟨r, tr, heq, hsegs, _⟩ := finishEngine_returned eng _
  refine ⟨r, tr, heq, ?_⟩
  rw [hsegs, hfilter, List.map_map]
  refine List.map_congr_left fun p hp => ?_
  show applyCb (cbMatrix bodies cb (stepBy (stepsToSkip f) states)) _ = _
  simp [cbMatrix, hidx, applyCb]

theorem write_to_spk_absolute_states_witness :
    ((399 : Int) ∉ [(301 : Int), 10] ∧ (0 : ℚ) ≤ 1 ∧ (1 : ℚ) ≤ 1 ∧
      engOK.openFails = false ∧
      (stepBy (stepsToSkip 1) [(42 : ℚ)]).head? = some 42 ∧
      (stepBy (stepsToSkip 1) [(42 : ℚ)]).getLast? = some 42 ∧
      stepBy (stepsToSkip 1)
        [[(1 : ℚ), 2, 3, 4, 5, 6, 7, 8, 9, 10, 11, 12]] ≠ []) ∧
    (cbMatrix [(301 : Int), 10] 399 (stepBy (stepsToSkip 1)
      [[(1 : ℚ), 2, 3, 4, 5, 6, 7, 8, 9, 10, 11, 12]]) = none ∧
    ∃ r tr, write_to_spk "out.bsp" [301, 10]
        [[(1 : ℚ), 2, 3, 4, 5, 6, 7, 8, 9, 10, 11, 12]] [42] 399 1 engOK =
        .returned r tr ∧
      tr.segments.map Segment.states =
        [(301 : Int), 10].enum.map (fun p =>
          kmScale (((stepBy (stepsToSkip 1)
            [[(1 : ℚ), 2, 3, 4, 5, 6, 7, 8, 9, 10, 11, 12]]).map
              (slice6 p.1)).flatten))) :=
  ⟨⟨by decide, zero_le_one, le_rfl, rfl,
    by rw [stepsToSkip_one]; rfl, by rw [stepsToSkip_one]; rfl,
    by rw [stepsToSkip_one, stepBy_one]; exact List.cons_ne_nil _ _⟩,
    write_to_spk_absolute_states "out.bsp" [301, 10]
      [[(1 : ℚ), 2, 3, 4, 5, 6, 7, 8, 9, 10, 11, 12]] [42] 399 1 engOK
      (by decide) zero_le_one le_rfl rfl 42 42
      (by rw [stepsToSkip_one]; rfl) (by rw [stepsToSkip_one]; rfl)
      (by rw [stepsToSkip_one, stepBy_one]; exact List.cons_ne_nil _ _)⟩

theorem buildSegments_empty_ets (cb : Int) (dsStates : List (List ℚ))
    (cbMat : Option (List ℚ)) (hS : dsStates ≠ []) :
    ∀ l : List (Nat × Int), (∃ p ∈ l, p.2 ≠ cb) →
      buildSegments cb dsStates [] cbMat l = .error .indexOOB := by
  intro l
  induction l with
  | nil => rintro ⟨p, hp, -⟩; cases hp
  | cons hd tl ih =>
    rintro ⟨p, hp, hne⟩
    obtain ⟨idx, id⟩ := hd
    by_cases h : id = cb
    · have hp' : p ∈ tl := by
        rcases List.mem_cons.mp hp with rfl | hmem
        · exact absurd h (by simpa using hne)
        · exact hmem
      simp only [buildSegments, if_pos h]
      exact ih ⟨p, hp', hne⟩
    · have hS' : dsStates.isEmpty = false := List.isEmpty_eq_false.mpr hS
      simp [buildSegments, h, hS']

theorem buildSegments_empty_states (cb : Int) (dsEts : List ℚ)
    (cbMat : Option (List ℚ)) :
    ∀ l : List (Nat × Int), (∃ p ∈ l, p.2 ≠ cb) →
      buildSegments cb [] dsEts cbMat l = .error .unwrapFail := by
  intro l
  induction l with
  | nil => rintro ⟨p, hp, -⟩; cases hp
  | cons hd tl ih =>
    rintro ⟨p, hp, hne⟩
    obtain ⟨idx, id⟩ := hd
    by_cases h : id = cb
    · have hp' : p ∈ tl := by
        rcases List.mem_cons.mp hp with rfl | hmem
        · exact absurd h (by simpa using hne)
        · exact hmem
      simp only [buildSegments, if_pos h]
      exact ih ⟨p, hp', hne⟩
    · simp [buildSegments, h]

theorem exists_enum_ne (bodies : List Int) (cb : Int)
    (h : ∃ id ∈ bodies, id ≠ cb) : ∃ p ∈ bodies.enum, p.2 ≠ cb := by
  obtain ⟨id, hid, hne⟩ := h
  obtain ⟨n, hn⟩ := List.mem_iff_getElem?.mp hid
  have hen : bodies.enum[n]? = some (n, id) := by
    have h2 : bodies.enum[n]? = bodies[n]?.map fun a => (0 + n, a) :=
      List.getElem?_enumFrom 0 bodies n
    rw [h2, hn]
    simp
  exact ⟨(n, id), List.getElem?_mem hen, hne⟩

/-- Claim C10, amended: with an empty `epochs` input, a fraction passing
the range check, a successful kernel open, and at least one body different
from the observer, `write_to_spk` panics rather than returning a typed
error. When the (down-sampled) state series is non-empty the panic is the
out-of-bounds indexing `ets[0]` / `ets[ets.len() - 1]` on the empty
down-sampled epoch vector; when the state series is also empty the panic
happens earlier, at a `concatenate(..).unwrap()` on an empty collection of
slices (line 145 or 160), before any epoch indexing is reached. -/
theorem write_to_spk_empty_epochs_panics (fname : String) (bodies : List Int)
    (states : List (List ℚ)) (cb : Int) (f : ℚ) (eng : Engine)
    (hf0 : 0 ≤ f) (hf1 : f ≤ 1) (hopen : eng.openFails = false)
    (hbody : ∃ id ∈ bodies, id ≠ cb) :
    (states ≠ [] →
      write_to_spk fname bodies states [] cb f eng = .panicked .indexOOB) ∧
    (states = [] →
      write_to_spk fname bodies states [] cb f eng =
        .panicked .unwrapFail) := by
  have henum := exists_enum_ne bodies cb hbody
  constructor
  · intro hne
    have hS : stepBy (stepsToSkip f) states ≠ [] := by
      rw [Ne, stepBy_eq_nil_iff]; exact hne
    have hS' : (stepBy (stepsToSkip f) states).isEmpty = false :=
      List.isEmpty_eq_false.mpr hS
    rw [write_to_spk, if_neg (not_not_intro ⟨hf0, hf1⟩), hopen]
    simp only [Bool.false_eq_true, if_false, stepBy_nil, hS',
      Bool.and_false, if_false]
    rw [buildSegments_empty_ets cb _ _ hS bodies.enum henum]
  · intro hnil
    subst hnil
    rw [write_to_spk, if_neg (not_not_intro ⟨hf0, hf1⟩), hopen]
    simp only [Bool.false_eq_true, if_false, stepBy_nil, List.isEmpty_nil,
      Bool.and_true]
    cases hidx : (bodies.findIdx? (fun id => id == cb)).isSome with
    | true => rfl
    | false =>
      simp only [Bool.false_eq_true, if_false]
      rw [buildSegments_empty_states cb _ _ bodies.enum henum]

theorem write_to_spk_empty_epochs_panics_witness :
    ((0 : ℚ) ≤ 1 ∧ (1 : ℚ) ≤ 1 ∧ engOK.openFails = false ∧
      (∃ id ∈ [(1 : Int), 2], id ≠ 1)) ∧
    (([[(0 : ℚ), 0, 0, 0, 0, 0], [(9 : ℚ), 9, 9, 9, 9, 9]] :
        List (List ℚ)) ≠ [] →
      write_to_spk "out.bsp" [1, 2]
          [[(0 : ℚ), 0, 0, 0, 0, 0], [(9 : ℚ), 9, 9, 9, 9, 9]] [] 1 1 engOK =
        .panicked .indexOOB) ∧
    (([[(0 : ℚ), 0, 0, 0, 0, 0], [(9 : ℚ), 9, 9, 9, 9, 9]] :
        List (List ℚ)) = [] →
      write_to_spk "out.bsp" [1, 2]
          [[(0 : ℚ), 0, 0, 0, 0, 0], [(9 : ℚ), 9, 9, 9, 9, 9]] [] 1 1 engOK =
        .panicked .unwrapFail) :=
  ⟨⟨zero_le_one, le_rfl, rfl, ⟨2, by decide, by decide⟩⟩,
    write_to_spk_empty_epochs_panics "out.bsp" [1, 2]
      [[(0 : ℚ), 0, 0, 0, 0, 0], [(9 : ℚ), 9, 9, 9, 9, 9]] 1 1 engOK
      zero_le_one le_rfl rfl ⟨2, by decide, by decide⟩⟩

/-- Claim C10 counterexample: a call with empty epochs *and* empty states
(the shape every invariant-respecting caller produces, since the two run
parallel) panics at the empty-`concatenate` unwrap of line 145, not at the
`ets[0]` indexing of lines 177-179 that the claim names. -/
theorem write_to_spk_empty_epochs_unwrap_panic :
    write_to_spk "out.bsp" [1, 2] [] [] 1 1 engOK =
      .panicked .unwrapFail ∧
    Panic.unwrapFail ≠ Panic.indexOOB := by
  constructor
  · decide
  · decide

theorem naif_ids_ok (bodn2c : String → Int × Bool) :
    ∀ names : List String, (∀ n ∈ names, (bodn2c n).2 = true) →
      naif_ids bodn2c names = .ok (names.map (fun n => (bodn2c n).1))
  | [], _ => rfl
  | nm :: rest, hok => by
    have h1 : (bodn2c nm).2 = true := hok nm (List.mem_cons_self nm rest)
    have ih := naif_ids_ok bodn2c rest
      (fun x hx => hok x (List.mem_cons_of_mem nm hx))
    rcases hb : bodn2c nm with ⟨id, tag⟩
    rw [hb] at h1
    cases tag with
    | false => cases h1
    | true => simp [naif_ids, hb, ih, Except.map, hb]

theorem naif_ids_err (bodn2c : String → Int × Bool) (bad : String)
    (rest : List String) (hbad : (bodn2c bad).2 = false) :
    ∀ pre : List String, (∀ n ∈ pre, (bodn2c n).2 = true) →
      naif_ids bodn2c (pre ++ bad :: rest) = .error (notFoundMsg bad)
  | [], _ => by
    rcases hb : bodn2c bad with ⟨id, tag⟩
    rw [hb] at hbad
    cases tag with
    | true => cases hbad
    | false => simp [naif_ids, hb, notFoundMsg]
  | x :: pre, hpre => by
    have hx : (bodn2c x).2 = true := hpre x (List.mem_cons_self x pre)
    have ih := naif_ids_err bodn2c bad rest hbad pre
      (fun y hy => hpre y (List.mem_cons_of_mem x hy))
    rcases hb : bodn2c x with ⟨id, tag⟩
    rw [hb] at hx
    cases tag with
    | false => cases hx
    | true => simp [naif_ids, hb, ih, Except.map]

/-- Claim C8: the identifier resolver is order-preserving — on success it
returns one numeric id per name in input order; at the first name the
engine cannot map, it fails with the not-found error naming exactly that
entry, and no ids are returned. -/
theorem naif_ids_spec (bodn2c : String → Int × Bool) (names : List String) :
    ((∀ n ∈ names, (bodn2c n).2 = true) →
      naif_ids bodn2c names = .ok (names.map (fun n => (bodn2c n).1))) ∧
    (∀ pre bad rest, names = pre ++ bad :: rest →
      (∀ n ∈ pre, (bodn2c n).2 = true) → (bodn2c bad).2 = false →
      naif_ids bodn2c names = .error (notFoundMsg bad)) :=
  ⟨naif_ids_ok bodn2c names,
    fun pre bad rest hn hpre hbad => by
      subst hn
      exact naif_ids_err bodn2c bad rest hbad pre hpre⟩

/-- A concrete resolver oracle: knows EARTH and MOON, nothing else. -/
def bodn2cDemo : String → Int × Bool := fun n =>
  if n = "EARTH" then (399, true)
  else if n = "MOON" then (301, true)
  else (0, false)

theorem naif_ids_spec_witness :
    ((∀ n ∈ ["EARTH", "MOON"], (bodn2cDemo n).2 = true) ∧
      naif_ids bodn2cDemo ["EARTH", "MOON"] = .ok [399, 301]) ∧
    ((bodn2cDemo "PLANET9").2 = false ∧
      naif_ids bodn2cDemo ["EARTH", "PLANET9", "MOON"] =
        .error (notFoundMsg "PLANET9")) :=
  ⟨⟨by decide, (naif_ids_spec bodn2cDemo ["EARTH", "MOON"]).1 (by decide)⟩,
    ⟨by decide, (naif_ids_spec bodn2cDemo ["EARTH", "PLANET9", "MOON"]).2
      ["EARTH"] "PLANET9" ["MOON"] rfl (by decide) (by decide)⟩⟩

theorem sliceAddAt_length (buf : List ℚ) (off : Nat) (s : List ℚ) :
    (sliceAddAt buf off s).length = buf.length := by
  simp [sliceAddAt]

theorem sliceAddAt_getElem? (buf : List ℚ) (off : Nat) (s : List ℚ)
    (j : Nat) :
    (sliceAddAt buf off s)[j]? = buf[j]?.map
      (fun v => if off ≤ j ∧ j < off + 6 then v + s.getD (j - off) 0
        else v) := by
  simp only [sliceAddAt, List.getElem?_map]
  have h2 : buf.enum[j]? = buf[j]?.map fun a => (0 + j, a) :=
    List.getElem?_enumFrom 0 buf j
  rw [h2]
  cases buf[j]? <;> simp

theorem sliceAddAt_outside (buf : List ℚ) (off : Nat) (s : List ℚ) (j : Nat)
    (h : j < off ∨ off + 6 ≤ j) : (sliceAddAt buf off s)[j]? = buf[j]? := by
  rw [sliceAddAt_getElem?]
  have hcond : ¬(off ≤ j ∧ j < off + 6) := by omega
  cases buf[j]? <;> simp [hcond]

theorem sliceAddAt_drop_take_outside (buf : List ℚ) (off : Nat) (s : List ℚ)
    (m : Nat) (h : off + 6 ≤ m) :
    ((sliceAddAt buf off s).drop m).take 6 = (buf.drop m).take 6 := by
  apply List.ext_getElem?
  intro n
  by_cases hn : n < 6
  · rw [List.getElem?_take_of_lt hn, List.getElem?_take_of_lt hn,
      List.getElem?_drop, List.getElem?_drop,
      sliceAddAt_outside buf off s (m + n) (Or.inr (by omega))]
  · rw [List.getElem?_eq_none, List.getElem?_eq_none]
    · simp only [List.length_take]
      omega
    · simp only [List.length_take]
      omega

theorem sliceAddAt_block (buf : List ℚ) (off : Nat) (s : List ℚ)
    (hs : s.length = 6) (hle : off + 6 ≤ buf.length) :
    ((sliceAddAt buf off s).drop off).take 6 =
      List.zipWith (fun a b => a + b) ((buf.drop off).take 6) s := by
  apply List.ext_getElem?
  intro n
  by_cases hn : n < 6
  · obtain ⟨v, hv⟩ : ∃ v, buf[off + n]? = some v :=
      ⟨_, List.getElem?_eq_getElem (by omega)⟩
    obtain ⟨w, hw⟩ : ∃ w, s[n]? = some w :=
      ⟨_, List.getElem?_eq_getElem (by omega)⟩
    rw [List.getElem?_take_of_lt hn, List.getElem?_drop, sliceAddAt_getElem?,
      hv, List.getElem?_zipWith, List.getElem?_take_of_lt hn,
      List.getElem?_drop, hv, hw]
    simp only [Option.map_some']
    have hcond : off ≤ off + n ∧ off + n < off + 6 := by omega
    rw [if_pos hcond]
    have harith : off + n - off = n := by omega
    rw [harith]
    simp [hw]
  · rw [List.getElem?_eq_none, List.getElem?_eq_none]
    · simp only [List.length_zipWith, List.length_take]
      omega
    · simp only [List.length_take]
      omega

theorem zipWith_add_replicate_zero :
    ∀ s : List ℚ,
      List.zipWith (fun a b => a + b) (List.replicate s.length (0 : ℚ)) s = s
  | [] => rfl
  | x :: s => by
    simp [List.replicate_succ, zipWith_add_replicate_zero s]

theorem replicate_drop_take (N m k : Nat) (h : m + k ≤ N) :
    ((List.replicate N (0 : ℚ)).drop m).take k = List.replicate k (0 : ℚ) := by
  apply List.ext_getElem?
  intro n
  by_cases hn : n < k
  · rw [List.getElem?_take_of_lt hn, List.getElem?_drop,
      List.getElem?_replicate, List.getElem?_replicate,
      if_pos (by omega), if_pos hn]
  · rw [List.getElem?_eq_none, List.getElem?_eq_none]
    · simp only [List.length_replicate]
      omega
    · simp only [List.length_take]
      omega

theorem states_go_err (g : Int → Except String (List ℚ)) (e : String) :
    ∀ (pre : List Int) (b : Int) (rest : List Int) (idx : Nat)
      (buf : List ℚ), (∀ x ∈ pre, ∃ s, g x = .ok s) → g b = .error e →
      states_go g (pre ++ b :: rest) idx buf = .error e
  | [], b, rest, idx, buf, _, hb => by simp [states_go, hb]
  | x :: pre, b, rest, idx, buf, hokr, hb => by
    obtain ⟨s, hs⟩ := hokr x (List.mem_cons_self x pre)
    simp only [List.cons_append, states_go, hs]
    exact states_go_err g e pre b rest (idx + 1) _
      (fun y hy => hokr y (List.mem_cons_of_mem x hy)) hb

theorem states_go_ok (g : Int → Except String (List ℚ)) :
    ∀ (bs : List Int) (idx : Nat) (buf : List ℚ),
      (∀ b ∈ bs, ∃ s, g b = .ok s ∧ s.length = 6) →
      ((idx + bs.length) * 6 ≤ buf.length) →
      ∃ out, states_go g bs idx buf = .ok out ∧ out.length = buf.length ∧
        (∀ j, j < idx * 6 → out[j]? = buf[j]?) ∧
        (∀ t b, bs[t]? = some b → ∀ s, g b = .ok s →
          (out.drop ((idx + t) * 6)).take 6 =
            List.zipWith (fun a b => a + b)
              ((buf.drop ((idx + t) * 6)).take 6) s)
  | [], idx, buf, hok, hlen =>
    ⟨buf, rfl, rfl, fun j hj => rfl, fun t b ht => by simp at ht⟩
  | b :: rest, idx, buf, hok, hlen => by
    obtain ⟨sb, hsb, hsb6⟩ := hok b (List.mem_cons_self b rest)
    have hok' : ∀ x ∈ rest, ∃ s, g x = .ok s ∧ s.length = 6 :=
      fun x hx => hok x (List.mem_cons_of_mem b hx)
    have hlenc : (idx + (b :: rest).length) * 6 = (idx + 1 + rest.length) * 6 := by
      simp only [List.length_cons]
      omega
    have hlen' : ((idx + 1) + rest.length) * 6 ≤
        (sliceAddAt buf (idx * 6) sb).length := by
      rw [sliceAddAt_length]
      omega
    obtain ⟨out, hgo, hlenout, hpre, hblocks⟩ :=
      states_go_ok g rest (idx + 1) (sliceAddAt buf (idx * 6) sb) hok' hlen'
    refine ⟨out, ?_, ?_, ?_, ?_⟩
    · simp only [states_go, hsb]
      exact hgo
    · rw [hlenout, sliceAddAt_length]
    · intro j hj
      rw [hpre j (by omega)]
      exact sliceAddAt_outside buf (idx * 6) sb j (Or.inl hj)
    · intro t b' ht s hs
      cases t with
      | zero =>
        have hb' : b = b' := by simpa using ht
        subst hb'
        have hseq : s = sb := by
          rw [hs] at hsb
          exact Except.ok.inj hsb
        subst hseq
        have hblockout : (out.drop ((idx + 0) * 6)).take 6 =
            ((sliceAddAt buf (idx * 6) s).drop ((idx + 0) * 6)).take 6 := by
          apply List.ext_getElem?
          intro n
          by_cases hn : n < 6
          · rw [List.getElem?_take_of_lt hn, List.getElem?_take_of_lt hn,
              List.getElem?_drop, List.getElem?_drop, hpre _ (by omega)]
          · rw [List.getElem?_eq_none, List.getElem?_eq_none]
            · simp only [List.length_take]
              omega
            · simp only [List.length_take]
              omega
        rw [hblockout]
        have harith : (idx + 0) * 6 = idx * 6 := by omega
        rw [harith]
        exact sliceAddAt_block buf (idx * 6) s hsb6 (by omega)
      | succ t' =>
        have ht' : rest[t']? = some b' := by simpa using ht
        have hbl := hblocks t' b' ht' s hs
        have harith : (idx + 1 + t') * 6 = (idx + (t' + 1)) * 6 := by omega
        rw [harith] at hbl
        have hout : ((sliceAddAt buf (idx * 6) sb).drop
            ((idx + (t' + 1)) * 6)).take 6 =
            (buf.drop ((idx + (t' + 1)) * 6)).take 6 :=
          sliceAddAt_drop_take_outside buf (idx * 6) sb _ (by omega)
        rw [hout] at hbl
        exact hbl

/-- Claim C7: `states_at_instant` queries one body after another in list
order; when every per-body call succeeds it returns a flat buffer of
length `6 * bodies.length` whose block at `[6t, 6t + 6)` is the state the
oracle returned for the `t`-th body, and at the first failing body it
returns that same error (no partial buffer). -/
theorem states_at_instant_spec
    (stateAt : Int → Int → ℚ → Except String (List ℚ)) (bodies : List Int)
    (cb : Int) (et : ℚ)
    (h6 : ∀ b ∈ bodies, ∀ s, stateAt b cb et = .ok s → s.length = 6) :
    ((∀ b ∈ bodies, ∃ s, stateAt b cb et = .ok s) →
      ∃ out, states_at_instant stateAt bodies cb et = .ok out ∧
        out.length = 6 * bodies.length ∧
        ∀ t b, bodies[t]? = some b → ∀ s, stateAt b cb et = .ok s →
          (out.drop (6 * t)).take 6 = s) ∧
    (∀ pre b rest e, bodies = pre ++ b :: rest →
      (∀ x ∈ pre, ∃ s, stateAt x cb et = .ok s) →
      stateAt b cb et = .error e →
      states_at_instant stateAt bodies cb et = .error e) := by
  constructor
  · intro hok
    have hok' : ∀ b ∈ bodies,
        ∃ s, (fun b => stateAt b cb et) b = .ok s ∧ s.length = 6 :=
      fun b hb => by
        obtain ⟨s, hs⟩ := hok b hb
        exact ⟨s, hs, h6 b hb s hs⟩
    have hlen0 : (0 + bodies.length) * 6 ≤
        (List.replicate (bodies.length * 6) (0 : ℚ)).length := by
      simp only [List.length_replicate]
      omega
    obtain ⟨out, hgo, hlen, hpre, hblocks⟩ :=
      states_go_ok (fun b => stateAt b cb et) bodies 0 _ hok' hlen0
    refine ⟨out, hgo, ?_, ?_⟩
    · rw [hlen]
      simp only [List.length_replicate]
      omega
    · intro t b ht s hs
      have ht' : t < bodies.length := by
        by_contra hh
        rw [List.getElem?_eq_none (by omega)] at ht
        cases ht
      have hbl := hblocks t b ht s hs
      have harith : (0 + t) * 6 = 6 * t := by omega
      rw [harith] at hbl
      rw [hbl, replicate_drop_take (bodies.length * 6) (6 * t) 6 (by omega)]
      have hs6 : s.length = 6 := h6 b (List.getElem?_mem ht) s hs
      rw [← hs6]
      exact zipWith_add_replicate_zero s
  · intro pre b rest e hnames hpre herr
    subst hnames
    exact states_go_err (fun x => stateAt x cb et) e pre b rest 0 _
      (fun x hx => hpre x hx) herr

/-- A concrete per-body state oracle: body 4 and body 9 have literal
6-vectors, every other body is unavailable. -/
def stateAtDemo : Int → Int → ℚ → Except String (List ℚ) := fun b _ _ =>
  if b = 4 then .ok [1, 2, 3, 4, 5, 6]
  else if b = 9 then .ok [7, 8, 9, 10, 11, 12]
  else .error "no data"

theorem states_at_instant_spec_witness :
    ((∀ b ∈ [(4 : Int), 9], ∀ s, stateAtDemo b 0 0 = .ok s →
        s.length = 6) ∧
      (∀ b ∈ [(4 : Int), 9], ∃ s, stateAtDemo b 0 0 = .ok s)) ∧
    (∃ out, states_at_instant stateAtDemo [4, 9] 0 0 = .ok out ∧
      out.length = 6 * [(4 : Int), 9].length ∧
      ∀ t b, [(4 : Int), 9][t]? = some b → ∀ s, stateAtDemo b 0 0 = .ok s →
        (out.drop (6 * t)).take 6 = s) := by
  have h6 : ∀ b ∈ [(4 : Int), 9], ∀ s, stateAtDemo b 0 0 = .ok s →
      s.length = 6 := by
    intro b hb s hs
    rcases List.mem_cons.mp hb with rfl | hb
    · rw [← Except.ok.inj hs]
      rfl
    · rcases List.mem_cons.mp hb with rfl | hb
      · rw [← Except.ok.inj hs]
        rfl
      · cases hb
  have hok : ∀ b ∈ [(4 : Int), 9], ∃ s, stateAtDemo b 0 0 = .ok s := by
    intro b hb
    rcases List.mem_cons.mp hb with rfl | hb
    · exact ⟨[1, 2, 3, 4, 5, 6], rfl⟩
    · rcases List.mem_cons.mp hb with rfl | hb
      · exact ⟨[7, 8, 9, 10, 11, 12], rfl⟩
      · cases hb
  exact ⟨⟨h6, hok⟩,
    (states_at_instant_spec stateAtDemo [4, 9] 0 0 h6).1 hok⟩

end TrajPropagate
